import Mathlib

/-!
Verification of the ELT time-series alignment/labeling application's core
data-structure logic against its natural-language specification.

The embedding is shallow: each TypeScript class becomes a Lean structure,
each method a pure function from the old state (and arguments) to the new
state (and result).  JavaScript numbers are modelled as rationals (ℚ),
`null` as `Option.none`, arrays as lists.
-/

namespace ELT

/-! ### HistoryTracker (src/app/ts/stores/dataStructures/HistoryTracker.ts)

Snapshot-based undo/redo logic.  Two internal arrays `_undoHistory` and
`_redoHistory`; methods `add`, `undo`, `redo`, `canUndo`, `canRndo`
(the source spells it `canRndo`), `reset`. -/

structure HistoryTracker (α : Type) where
  undoHistory : List α
  redoHistory : List α
deriving DecidableEq, Repr

namespace HistoryTracker

/-- Constructor: both histories start empty. -/
def mk' (α : Type) : HistoryTracker α := ⟨[], []⟩

/-- `add(item)`: push onto the undo history, clear the redo history. -/
def add (h : HistoryTracker α) (item : α) : HistoryTracker α :=
  { undoHistory := h.undoHistory ++ [item], redoHistory := [] }

/-- `undo(current)`: if the undo history is non-empty, splice out its last
element, push `current` onto the redo history and return the element;
otherwise return `null` (modelled as `none`) and leave the state alone. -/
def undo (h : HistoryTracker α) (current : α) : Option α × HistoryTracker α :=
  match h.undoHistory.getLast? with
  | some lastItem =>
      (some lastItem,
       { undoHistory := h.undoHistory.dropLast,
         redoHistory := h.redoHistory ++ [current] })
  | none => (none, h)

/-- `redo(current)`: the mirror image of `undo`. -/
def redo (h : HistoryTracker α) (current : α) : Option α × HistoryTracker α :=
  match h.redoHistory.getLast? with
  | some lastItem =>
      (some lastItem,
       { undoHistory := h.undoHistory ++ [current],
         redoHistory := h.redoHistory.dropLast })
  | none => (none, h)

/-- `canUndo()`: the undo history is non-empty. -/
def canUndo (h : HistoryTracker α) : Bool := decide (0 < h.undoHistory.length)

/-- `canRndo()` (sic): the redo history is non-empty. -/
def canRndo (h : HistoryTracker α) : Bool := decide (0 < h.redoHistory.length)

/-- `reset()`: discard both histories. -/
def reset (_h : HistoryTracker α) : HistoryTracker α := ⟨[], []⟩

end HistoryTracker

/-- C1: for every `HistoryTracker` state with a non-empty undo history, if
`undo current` returns snapshot `s`, then `redo s` on the resulting state
returns `current`, and after the undo-then-redo pair both the undo history
and the redo history equal their state before the undo. -/
theorem undo_then_redo_roundtrip {α : Type} (h : HistoryTracker α) (current s : α)
    (hne : h.undoHistory ≠ []) (hres : (h.undo current).1 = some s) :
    ((h.undo current).2.redo s).1 = some current ∧
    ((h.undo current).2.redo s).2 = h := by
  rcases h with ⟨u, r⟩
  have hgl : u.getLast? = some s := by
    by_cases hu : u.getLast? = none
    · simp [HistoryTracker.undo, hu] at hres
    · rcases Option.ne_none_iff_exists'.mp hu with ⟨x, hx⟩
      simp [HistoryTracker.undo, hx] at hres
      simp [hx, hres]
  have hu' : u ≠ [] := hne
  have hsplit : u.dropLast ++ [s] = u := by
    have h2 : u.getLast hu' = s := by
      have h3 := List.getLast?_eq_getLast u hu'
      rw [h3] at hgl
      exact Option.some_inj.mp hgl
    have h4 := List.dropLast_append_getLast hu'
    rw [h2] at h4
    exact h4
  constructor
  · simp [HistoryTracker.undo, hgl, HistoryTracker.redo]
  · simp only [HistoryTracker.undo, hgl, HistoryTracker.redo]
    simp [List.dropLast_concat, hsplit]

/-- Concrete instantiation of `undo_then_redo_roundtrip` on the tracker
`⟨[1, 2], [5]⟩` with current snapshot `3`. -/
theorem undo_then_redo_roundtrip_witness :
    ((HistoryTracker.mk ([1, 2] : List ℕ) [5]).undo 3).1 = some 2 ∧
    ((((HistoryTracker.mk ([1, 2] : List ℕ) [5]).undo 3).2.redo 2).1 = some 3 ∧
     (((HistoryTracker.mk ([1, 2] : List ℕ) [5]).undo 3).2.redo 2).2 =
       HistoryTracker.mk [1, 2] [5]) :=
  ⟨by decide,
   undo_then_redo_roundtrip (HistoryTracker.mk [1, 2] [5]) 3 2 (by decide) (by decide)⟩

/-- C2: after `add s`, `s` is the last entry of the undo history, `canUndo`
is `true`, and the redo history is empty, so `canRndo` is `false` — even if
it was `true` before. -/
theorem add_appends_and_clears_redo {α : Type} (h : HistoryTracker α) (s : α) :
    (h.add s).undoHistory.getLast? = some s ∧
    (h.add s).canUndo = true ∧
    (h.add s).redoHistory = [] ∧
    (h.add s).canRndo = false := by
  refine ⟨?_, ?_, rfl, rfl⟩
  · simp [HistoryTracker.add]
  · simp [HistoryTracker.add, HistoryTracker.canUndo]

/-- C3: `undo` on an empty undo history returns the null sentinel and leaves
both sequences unchanged; symmetrically `redo` on an empty redo history
returns the null sentinel and leaves both sequences unchanged. -/
theorem undo_redo_empty_noop {α : Type} (h : HistoryTracker α) (current : α) :
    (h.undoHistory = [] → h.undo current = (none, h)) ∧
    (h.redoHistory = [] → h.redo current = (none, h)) := by
  constructor
  · intro he
    simp [HistoryTracker.undo, he]
  · intro he
    simp [HistoryTracker.redo, he]

/-- Concrete instantiation of `undo_redo_empty_noop` on the empty tracker. -/
theorem undo_redo_empty_noop_witness :
    (HistoryTracker.mk ([] : List ℕ) []).undo 7 = (none, HistoryTracker.mk [] []) ∧
    (HistoryTracker.mk ([] : List ℕ) []).redo 7 = (none, HistoryTracker.mk [] []) :=
  ⟨(undo_redo_empty_noop (HistoryTracker.mk [] []) 7).1 rfl,
   (undo_redo_empty_noop (HistoryTracker.mk [] []) 7).2 rfl⟩

/-! ### LabelingStore class colors (src/unnamed/part_003, `updateColors`)

The store keeps `classes : string[]`, `classColors : string[]` and
`classColormap : { [name: string]: string }`.  `updateColors` first copies
colors known from `classColormap` (phase 1, pushing them onto `usedColors`
in class order), then fills the remaining `null` slots in class order:
`'IGNORE'` gets the fixed grey `'#CCC'`, every other class gets the first
palette color not in `usedColors` (staying `null` if the palette is
exhausted); finally `classColormap` is rebuilt from the result.

A JavaScript color map object is modelled as an association list
`List (String × Option String)` with first-match lookup; a value is used
only when truthy (present, non-null and not the empty string), mirroring
`if (this.classColormap[this.classes[i]])`. -/

def colorbrewer6 : List String :=
  ["#a6cee3", "#b2df8a", "#fb9a99", "#fdbf6f", "#cab2d6", "#ffff99"]

def d3category20 : List String :=
  ["#1f77b4", "#aec7e8", "#ff7f0e", "#ffbb78", "#2ca02c",
   "#98df8a", "#d62728", "#ff9896", "#9467bd", "#c5b0d5",
   "#8c564b", "#c49c94", "#e377c2", "#f7b6d2", "#7f7f7f",
   "#c7c7c7", "#bcbd22", "#dbdb8d", "#17becf", "#9edae5"]

/-- A JavaScript object mapping class names to colors (`null` allowed). -/
abbrev ColorMap := List (String × Option String)

/-- Truthy lookup in a color map: the entry must exist and its value must be
a non-null, non-empty string. -/
def cmapGet (m : ColorMap) (k : String) : Option String :=
  match m.find? (fun e => e.1 == k) with
  | some (_, some c) => if c = "" then none else some c
  | _ => none

/-- Phase 1 of `updateColors`: `classColors[i]` is the truthy color from
`classColormap` when the map exists (`if (this.classColormap)`), else null. -/
def preservedColors (cmap : Option ColorMap) (classes : List String) :
    List (Option String) :=
  match cmap with
  | none => classes.map (fun _ => none)
  | some m => classes.map (cmapGet m)

/-- Inner loop of phase 2: the first palette color not in `usedColors`
(`usedColors.indexOf(palette[j]) < 0`). -/
def firstUnused (palette used : List String) : Option String :=
  palette.find? (fun c => !(used.contains c))

/-- Color assigned to a single class in phase 2 of `updateColors`, given the
`usedColors` accumulated so far. -/
def assignOne (palette : List String) (cls : String) (opt : Option String)
    (used : List String) : Option String :=
  match opt with
  | some c => some c
  | none => if cls = "IGNORE" then some "#CCC" else firstUnused palette used

/-- `usedColors` after processing a single class in phase 2. -/
def assignUsedOne (palette : List String) (cls : String) (opt : Option String)
    (used : List String) : List String :=
  match opt with
  | some _ => used
  | none =>
    if cls = "IGNORE" then used ++ ["#CCC"]
    else
      match firstUnused palette used with
      | some c => used ++ [c]
      | none => used

/-- Phase 2 of `updateColors`: walk the classes (paired with their phase-1
colors) in order, threading `usedColors`. -/
def assignLoop (palette : List String) :
    List (String × Option String) → List String → List (Option String)
  | [], _used => []
  | (cls, opt) :: rest, used =>
      assignOne palette cls opt used ::
        assignLoop palette rest (assignUsedOne palette cls opt used)

/-- The `usedColors` accumulator after phase 2 has processed a list of
classes. -/
def assignLoopUsed (palette : List String) :
    List (String × Option String) → List String → List String
  | [], used => used
  | (cls, opt) :: rest, used =>
      assignLoopUsed palette rest (assignUsedOne palette cls opt used)

/-- Palette selection: `d3category20`, replaced by `colorbrewer6` when
`classes.length < 6`. -/
def paletteFor (classes : List String) : List String :=
  if classes.length < 6 then colorbrewer6 else d3category20

/-- `updateColors`: the resulting `classColors` array. -/
def updateColors (classes : List String) (cmap : Option ColorMap) :
    List (Option String) :=
  assignLoop (paletteFor classes) (classes.zip (preservedColors cmap classes))
    ((preservedColors cmap classes).filterMap id)

/-- Rebuilding `classColormap` from `classes` and `classColors` at the end of
`updateColors`.  The JavaScript loop assigns in ascending index order, so a
later duplicate key wins; reversing the zip makes first-match lookup agree
with that. -/
def buildColormap (classes : List String) (colors : List (Option String)) :
    ColorMap :=
  (classes.zip colors).reverse

/-- The `usedColors` accumulator at the moment class `i` is processed in
phase 2: all phase-1 (preserved) colors plus the colors assigned to classes
before `i`. -/
def usedBefore (classes : List String) (cmap : Option ColorMap) (i : ℕ) :
    List String :=
  assignLoopUsed (paletteFor classes)
    ((classes.zip (preservedColors cmap classes)).take i)
    ((preservedColors cmap classes).filterMap id)

lemma preservedColors_length (cmap : Option ColorMap) (classes : List String) :
    (preservedColors cmap classes).length = classes.length := by
  cases cmap <;> simp [preservedColors]

lemma assignLoop_length (palette : List String)
    (es : List (String × Option String)) (u : List String) :
    (assignLoop palette es u).length = es.length := by
  induction es generalizing u with
  | nil => rfl
  | cons e rest ih =>
      obtain ⟨cls, opt⟩ := e
      simp [assignLoop, ih]

lemma assignLoop_append (palette : List String)
    (es₁ es₂ : List (String × Option String)) (u : List String) :
    assignLoop palette (es₁ ++ es₂) u =
      assignLoop palette es₁ u ++
        assignLoop palette es₂ (assignLoopUsed palette es₁ u) := by
  induction es₁ generalizing u with
  | nil => simp [assignLoop, assignLoopUsed]
  | cons e rest ih =>
      obtain ⟨cls, opt⟩ := e
      simp [assignLoop, assignLoopUsed, ih]

lemma updateColors_getElem? (classes : List String) (cmap : Option ColorMap)
    (i : ℕ) (hi : i < classes.length) :
    (updateColors classes cmap)[i]? =
      some (assignOne (paletteFor classes) (classes.get ⟨i, hi⟩)
        ((preservedColors cmap classes).get
          ⟨i, by rw [preservedColors_length]; exact hi⟩)
        (usedBefore classes cmap i)) := by
  have hpl : (preservedColors cmap classes).length = classes.length :=
    preservedColors_length cmap classes
  set pre := preservedColors cmap classes with hpre
  set es := classes.zip pre with hes
  have hesl : es.length = classes.length := by
    rw [hes, List.length_zip, hpl, min_self]
  have hie : i < es.length := by rw [hesl]; exact hi
  have hsplit : es = es.take i ++ es.drop i := (List.take_append_drop i es).symm
  have hip : i < pre.length := by rw [hpl]; exact hi
  have h5 : es[i]? = some (classes.get ⟨i, hi⟩, pre.get ⟨i, hip⟩) := by
    rw [hes, List.getElem?_zip_eq_some]
    exact ⟨List.getElem?_eq_getElem hi, List.getElem?_eq_getElem hip⟩
  have hdrop : es.drop i =
      (classes.get ⟨i, hi⟩, pre.get ⟨i, hip⟩) :: es.drop (i + 1) := by
    rw [List.drop_eq_getElem_cons hie]
    congr 1
    have h6 := List.getElem?_eq_getElem hie
    rw [h5] at h6
    exact (Option.some_inj.mp h6).symm
  have htl : (es.take i).length = i := by
    rw [List.length_take]
    omega
  have hmain : updateColors classes cmap =
      assignLoop (paletteFor classes) (es.take i)
        (pre.filterMap id) ++
      assignLoop (paletteFor classes) (es.drop i)
        (assignLoopUsed (paletteFor classes) (es.take i) (pre.filterMap id)) := by
    rw [updateColors]
    rw [← hpre, ← hes]
    rw [← assignLoop_append, ← hsplit]
  rw [hmain]
  have hlen1 : (assignLoop (paletteFor classes) (es.take i)
      (pre.filterMap id)).length = i := by
    rw [assignLoop_length, htl]
  rw [List.getElem?_append_right (by rw [hlen1])]
  rw [hlen1]
  simp only [Nat.sub_self]
  rw [hdrop]
  simp [assignLoop, usedBefore, ← hpre, ← hes]

lemma mem_of_idx {α : Type} {l : List α} {n : ℕ} {a : α} (h : l[n]? = some a) :
    a ∈ l := by
  rcases List.getElem?_eq_some_iff.mp h with ⟨hn, rfl⟩
  exact List.getElem_mem hn

lemma firstUnused_eq_none (palette u : List String)
    (h : ∀ q ∈ palette, q ∈ u) : firstUnused palette u = none := by
  rw [firstUnused, List.find?_eq_none]
  intro x hx
  simp [h x hx]

lemma firstUnused_eq_some (palette u : List String) (c : String)
    (h : firstUnused palette u = some c) : c ∈ palette ∧ c ∉ u := by
  refine ⟨List.mem_of_find?_eq_some h, ?_⟩
  have h2 := List.find?_some h
  simpa using h2

lemma mem_assignUsedOne {x : String} (palette : List String) (cls : String)
    (opt : Option String) (u : List String) (hx : x ∈ u) :
    x ∈ assignUsedOne palette cls opt u := by
  cases opt with
  | some c => exact hx
  | none =>
      by_cases hcls : cls = "IGNORE"
      · simp [assignUsedOne, hcls, hx]
      · cases hfu : firstUnused palette u with
        | some c => simp [assignUsedOne, hcls, hfu, hx]
        | none => simp [assignUsedOne, hcls, hfu, hx]

lemma mem_assignLoopUsed {x : String} (palette : List String)
    (es : List (String × Option String)) (u : List String) (hx : x ∈ u) :
    x ∈ assignLoopUsed palette es u := by
  induction es generalizing u with
  | nil => exact hx
  | cons e rest ih =>
      obtain ⟨cls, opt⟩ := e
      exact ih _ (mem_assignUsedOne palette cls opt u hx)

lemma assignLoop_copy (palette : List String)
    (es : List (String × Option String)) (u : List String)
    (h : ∀ p ∈ es, p.2 = none → p.1 ≠ "IGNORE" ∧ ∀ q ∈ palette, q ∈ u) :
    assignLoop palette es u = es.map Prod.snd := by
  induction es with
  | nil => rfl
  | cons e rest ih =>
      obtain ⟨cls, opt⟩ := e
      have htail : ∀ p ∈ rest, p.2 = none →
          p.1 ≠ "IGNORE" ∧ ∀ q ∈ palette, q ∈ u :=
        fun p hp hn => h p (List.mem_cons_of_mem _ hp) hn
      cases opt with
      | some c =>
          have h1 : assignLoop palette ((cls, some c) :: rest) u =
              some c :: assignLoop palette rest u := rfl
          rw [h1, ih htail]
          rfl
      | none =>
          obtain ⟨hnign, hpal⟩ := h (cls, none) (List.mem_cons_self _ _) rfl
          have hfu : firstUnused palette u = none := firstUnused_eq_none _ _ hpal
          have h1 : assignLoop palette ((cls, none) :: rest) u =
              assignOne palette cls none u ::
                assignLoop palette rest (assignUsedOne palette cls none u) := rfl
          have h2 : assignUsedOne palette cls none u = u := by
            simp [assignUsedOne, hnign, hfu]
          have h3 : assignOne palette cls none u = none := by
            simp [assignOne, hnign, hfu]
          rw [h1, h2, h3, ih htail]
          rfl

lemma assignLoop_getElem?_of_some (palette : List String)
    (es : List (String × Option String)) (u : List String) (i : ℕ)
    (cls c : String) (h : es[i]? = some (cls, some c)) :
    (assignLoop palette es u)[i]? = some (some c) := by
  induction es generalizing u i with
  | nil => simp at h
  | cons e rest ih =>
      obtain ⟨cls', opt'⟩ := e
      cases i with
      | zero =>
          have h0 : (cls', opt') = (cls, some c) := by simpa using h
          have h2 : opt' = some c := congrArg Prod.snd h0
          subst h2
          simp [assignLoop, assignOne]
      | succ n =>
          have h' : rest[n]? = some (cls, some c) := by simpa using h
          simpa [assignLoop] using ih _ n h'

lemma assignLoop_exhausted (palette : List String)
    (es : List (String × Option String)) (u : List String) (i : ℕ)
    (hres : (assignLoop palette es u)[i]? = some none) :
    (∃ cls, es[i]? = some (cls, none) ∧ cls ≠ "IGNORE") ∧
    ∀ q ∈ palette, q ∈ u ∨ q ∈ (assignLoop palette es u).filterMap id := by
  induction es generalizing u i with
  | nil => simp [assignLoop] at hres
  | cons e rest ih =>
      obtain ⟨cls', opt'⟩ := e
      have hshape : assignLoop palette ((cls', opt') :: rest) u =
          assignOne palette cls' opt' u ::
            assignLoop palette rest (assignUsedOne palette cls' opt' u) := rfl
      cases i with
      | zero =>
          have hres0 : assignOne palette cls' opt' u = none := by
            rw [hshape] at hres
            simpa using hres
          cases opt' with
          | some c => simp [assignOne] at hres0
          | none =>
              by_cases hcls : cls' = "IGNORE"
              · simp [assignOne, hcls] at hres0
              · have hfu : firstUnused palette u = none := by
                  simpa [assignOne, hcls] using hres0
                refine ⟨⟨cls', by simp, hcls⟩, ?_⟩
                intro q hq
                left
                have h2 := List.find?_eq_none.mp hfu q hq
                simpa using h2
      | succ n =>
          have hres' : (assignLoop palette rest
              (assignUsedOne palette cls' opt' u))[n]? = some none := by
            rw [hshape] at hres
            simpa using hres
          obtain ⟨⟨cls, hcls1, hcls2⟩, hpal⟩ := ih _ n hres'
          refine ⟨⟨cls, by simpa using hcls1, hcls2⟩, ?_⟩
          intro q hq
          have hheadmem : ∀ b, assignOne palette cls' opt' u = some b →
              b ∈ (assignLoop palette ((cls', opt') :: rest) u).filterMap id := by
            intro b hb
            rw [hshape]
            refine List.mem_filterMap.mpr ⟨some b, ?_, rfl⟩
            rw [← hb]
            exact List.mem_cons_self _ _
          rcases hpal q hq with hq1 | hq2
          · cases opt' with
            | some cc => exact Or.inl hq1
            | none =>
                by_cases hI : cls' = "IGNORE"
                · have hq1' : q ∈ u ∨ q = "#CCC" := by
                    simpa [assignUsedOne, hI] using hq1
                  rcases hq1' with hq3 | hq4
                  · exact Or.inl hq3
                  · refine Or.inr ?_
                    rw [hq4]
                    exact hheadmem "#CCC" (by simp [assignOne, hI])
                · cases hfu : firstUnused palette u with
                  | some cc =>
                      have hq1' : q ∈ u ∨ q = cc := by
                        simpa [assignUsedOne, hI, hfu] using hq1
                      rcases hq1' with hq3 | hq4
                      · exact Or.inl hq3
                      · refine Or.inr ?_
                        rw [hq4]
                        exact hheadmem cc (by simp [assignOne, hI, hfu])
                  | none =>
                      have hq3 : q ∈ u := by
                        simpa [assignUsedOne, hI, hfu] using hq1
                      exact Or.inl hq3
          · rcases List.mem_filterMap.mp hq2 with ⟨b, hb, hbq⟩
            refine Or.inr ?_
            rw [hshape]
            exact List.mem_filterMap.mpr ⟨b, List.mem_cons_of_mem _ hb, hbq⟩

lemma assignLoop_some_mem_used (palette : List String)
    (es : List (String × Option String)) (u : List String)
    (h : ∀ p ∈ es, ∀ c, p.2 = some c → c ∈ u) (d : String)
    (hd : some d ∈ assignLoop palette es u) :
    d ∈ assignLoopUsed palette es u := by
  induction es generalizing u with
  | nil => simp [assignLoop] at hd
  | cons e rest ih =>
      obtain ⟨cls', opt'⟩ := e
      have hshape : assignLoop palette ((cls', opt') :: rest) u =
          assignOne palette cls' opt' u ::
            assignLoop palette rest (assignUsedOne palette cls' opt' u) := rfl
      rw [hshape] at hd
      rcases List.mem_cons.mp hd with hd1 | hd2
      · have hdu : d ∈ assignUsedOne palette cls' opt' u := by
          cases opt' with
          | some c =>
              have hdc : d = c := by simpa [assignOne] using hd1
              subst hdc
              exact h (cls', some d) (List.mem_cons_self _ _) d rfl
          | none =>
              by_cases hI : cls' = "IGNORE"
              · have hdc : d = "#CCC" := by simpa [assignOne, hI] using hd1
                subst hdc
                simp [assignUsedOne, hI]
              · cases hfu : firstUnused palette u with
                | some c =>
                    have hdc : d = c := by simpa [assignOne, hI, hfu] using hd1
                    subst hdc
                    simp [assignUsedOne, hI, hfu]
                | none => simp [assignOne, hI, hfu] at hd1
        exact mem_assignLoopUsed palette rest _ hdu
      · exact ih _
          (fun p hp c hc =>
            mem_assignUsedOne _ _ _ _ (h p (List.mem_cons_of_mem _ hp) c hc)) hd2

lemma updateColors_length (classes : List String) (cmap : Option ColorMap) :
    (updateColors classes cmap).length = classes.length := by
  rw [updateColors, assignLoop_length, List.length_zip, preservedColors_length,
    min_self]

lemma cmapGet_ne_empty {m : ColorMap} {k c : String} (h : cmapGet m k = some c) :
    c ≠ "" := by
  unfold cmapGet at h
  split at h
  next a cprev heq =>
    split at h
    next => exact absurd h (by simp)
    next hne =>
      have hcc : cprev = c := Option.some_inj.mp h
      rw [← hcc]
      exact hne
  next => exact absurd h (by simp)

lemma preservedColors_ne_empty {cmap : Option ColorMap} {classes : List String}
    {i : ℕ} {c : String}
    (h : (preservedColors cmap classes)[i]? = some (some c)) : c ≠ "" := by
  cases cmap with
  | none =>
      simp only [preservedColors, List.getElem?_map] at h
      cases hcl : classes[i]? <;> rw [hcl] at h <;> simp at h
  | some m =>
      simp only [preservedColors, List.getElem?_map] at h
      cases hcl : classes[i]? with
      | none => rw [hcl] at h; simp at h
      | some cls =>
          rw [hcl, Option.map_some'] at h
          exact cmapGet_ne_empty (Option.some_inj.mp h)

lemma palette_ne_empty (classes : List String) :
    ∀ q ∈ paletteFor classes, q ≠ "" := by
  unfold paletteFor
  split
  · decide
  · decide

lemma assignOne_ne_empty {palette : List String} {cls : String}
    {opt : Option String} {u : List String} {c : String}
    (hpal : ∀ q ∈ palette, q ≠ "") (hopt : ∀ c2, opt = some c2 → c2 ≠ "")
    (h : assignOne palette cls opt u = some c) : c ≠ "" := by
  cases opt with
  | some c2 =>
      have hc2 : c2 = c := Option.some_inj.mp h
      exact hc2 ▸ hopt c2 rfl
  | none =>
      by_cases hI : cls = "IGNORE"
      · have hc : c = "#CCC" := by
          have h2 := h
          simp [assignOne, hI] at h2
          exact h2.symm
        subst hc
        decide
      · have hfu : firstUnused palette u = some c := by
          simpa [assignOne, hI] using h
        exact hpal c (firstUnused_eq_some _ _ _ hfu).1

lemma updateColors_ne_empty {classes : List String} {cmap : Option ColorMap}
    {i : ℕ} {c : String}
    (h : (updateColors classes cmap)[i]? = some (some c)) : c ≠ "" := by
  have hi : i < classes.length := by
    by_contra hge
    push_neg at hge
    have hnone : (updateColors classes cmap)[i]? = none :=
      List.getElem?_eq_none (by rw [updateColors_length]; exact hge)
    rw [hnone] at h
    exact absurd h (by simp)
  have hip : i < (preservedColors cmap classes).length := by
    rw [preservedColors_length]
    exact hi
  have hkey := updateColors_getElem? classes cmap i hi
  rw [hkey] at h
  refine assignOne_ne_empty (palette_ne_empty classes) ?_ (Option.some_inj.mp h)
  intro c2 hc2
  refine @preservedColors_ne_empty cmap classes i c2 ?_
  have h9 := List.getElem?_eq_getElem (l := preservedColors cmap classes) hip
  rw [h9]
  exact congrArg some hc2

lemma find?_unique {α : Type} {p : α → Bool} {l : List α} {a : α} (ha : a ∈ l)
    (hpa : p a = true) (huniq : ∀ b ∈ l, p b = true → b = a) :
    l.find? p = some a := by
  induction l with
  | nil => simp at ha
  | cons b l ih =>
      by_cases hpb : p b = true
      · rw [List.find?_cons_of_pos _ hpb]
        exact congrArg some (huniq b (List.mem_cons_self _ _) hpb)
      · rw [List.find?_cons_of_neg _ hpb]
        rcases List.mem_cons.mp ha with rfl | ha'
        · exact absurd hpa hpb
        · exact ih ha' (fun b2 hb2 hp2 => huniq b2 (List.mem_cons_of_mem _ hb2) hp2)

lemma buildColormap_find (classes : List String) (colors : List (Option String))
    (hnd : classes.Nodup) (i : ℕ) (hi : i < classes.length)
    (hic : i < colors.length) :
    (buildColormap classes colors).find?
        (fun e => e.1 == classes.get ⟨i, hi⟩) =
      some (classes.get ⟨i, hi⟩, colors.get ⟨i, hic⟩) := by
  apply find?_unique
  · rw [buildColormap, List.mem_reverse]
    apply mem_of_idx (n := i)
    rw [List.getElem?_zip_eq_some]
    exact ⟨List.getElem?_eq_getElem hi, List.getElem?_eq_getElem hic⟩
  · simp
  · intro b hb hpb
    rw [buildColormap, List.mem_reverse] at hb
    rcases List.getElem?_of_mem hb with ⟨j, hj⟩
    rw [List.getElem?_zip_eq_some] at hj
    obtain ⟨hj1, hj2⟩ := hj
    have hbeq : b.1 = classes.get ⟨i, hi⟩ := by simpa using hpb
    obtain ⟨hjlt, hcj⟩ := List.getElem?_eq_some_iff.mp hj1
    have hji : j = i := by
      refine (@List.Nodup.getElem_inj_iff _ _ hnd j hjlt i hi).mp ?_
      rw [hcj, hbeq]
      rfl
    subst hji
    obtain ⟨hjlt2, hcj2⟩ := List.getElem?_eq_some_iff.mp hj2
    refine Prod.ext hbeq ?_
    rw [← hcj2]
    rfl

lemma cmapGet_rebuild (classes : List String) (colors : List (Option String))
    (hnd : classes.Nodup) (i : ℕ) (hi : i < classes.length)
    (hic : i < colors.length) :
    cmapGet (buildColormap classes colors) (classes.get ⟨i, hi⟩) =
      match colors.get ⟨i, hic⟩ with
      | some c => if c = "" then none else some c
      | none => none := by
  unfold cmapGet
  rw [buildColormap_find classes colors hnd i hi hic]
  cases colors.get ⟨i, hic⟩ <;> rfl

/-- When `y` is not one of the classes a colormap was built from, the truthy
lookup for `y` fails. -/
lemma cmapGet_not_mem (classes : List String) (colors : List (Option String))
    (y : String) (hy : y ∉ classes) :
    cmapGet (buildColormap classes colors) y = none := by
  unfold cmapGet
  have hfind : (buildColormap classes colors).find? (fun e => e.1 == y) = none := by
    rw [List.find?_eq_none]
    intro e he
    rw [buildColormap, List.mem_reverse] at he
    obtain ⟨e1, e2⟩ := e
    have hmem := (List.of_mem_zip he).1
    simp only [beq_iff_eq]
    intro hcontra
    exact hy (hcontra ▸ hmem)
  rw [hfind]

lemma preservedColors_rebuild (classes : List String) (cmap : Option ColorMap)
    (hnd : classes.Nodup) :
    preservedColors (some (buildColormap classes (updateColors classes cmap)))
        classes = updateColors classes cmap := by
  apply List.ext_getElem?
  intro n
  have hlen : (updateColors classes cmap).length = classes.length :=
    updateColors_length classes cmap
  by_cases hn : n < classes.length
  · have hnc : n < (updateColors classes cmap).length := by rw [hlen]; exact hn
    simp only [preservedColors, List.getElem?_map]
    have h1 : classes[n]? = some (classes.get ⟨n, hn⟩) :=
      List.getElem?_eq_getElem hn
    have h2 : (updateColors classes cmap)[n]? =
        some ((updateColors classes cmap).get ⟨n, hnc⟩) :=
      List.getElem?_eq_getElem hnc
    rw [h1, h2, Option.map_some']
    rw [cmapGet_rebuild classes (updateColors classes cmap) hnd n hn hnc]
    cases hv : (updateColors classes cmap).get ⟨n, hnc⟩ with
    | none => simp
    | some c =>
        have hcne : c ≠ "" := by
          refine @updateColors_ne_empty classes cmap n c ?_
          rw [h2]
          exact congrArg some hv
        simp [hcne]
  · push_neg at hn
    rw [List.getElem?_eq_none (by rw [preservedColors_length]; exact hn),
      List.getElem?_eq_none (by rw [hlen]; exact hn)]

/-- C4: `updateColors` keeps each class's previously mapped (truthy) color;
a class without a prior color named `IGNORE` gets the fixed grey `#CCC`;
every other class without a prior color gets the first palette color not
already used by an earlier assignment (the preserved colors plus the colors
assigned to earlier classes — `none` if the palette is exhausted); and the
palette is the 6-color `colorbrewer6` when there are fewer than 6 classes,
else the 20-color `d3category20`. -/
theorem updateColors_assignment_rules (classes : List String)
    (cmap : Option ColorMap) (i : ℕ) (hi : i < classes.length) :
    paletteFor classes =
      (if classes.length < 6 then colorbrewer6 else d3category20) ∧
    (∀ c, (preservedColors cmap classes)[i]? = some (some c) →
      (updateColors classes cmap)[i]? = some (some c)) ∧
    ((preservedColors cmap classes)[i]? = some none →
      classes[i]? = some "IGNORE" →
      (updateColors classes cmap)[i]? = some (some "#CCC")) ∧
    ((preservedColors cmap classes)[i]? = some none →
      classes[i]? ≠ some "IGNORE" →
      (updateColors classes cmap)[i]? =
        some (firstUnused (paletteFor classes) (usedBefore classes cmap i))) := by
  have hpl : (preservedColors cmap classes).length = classes.length :=
    preservedColors_length cmap classes
  have hip : i < (preservedColors cmap classes).length := by rw [hpl]; exact hi
  have hkey := updateColors_getElem? classes cmap i hi
  have hpe : (preservedColors cmap classes)[i]? =
      some ((preservedColors cmap classes).get ⟨i, hip⟩) :=
    List.getElem?_eq_getElem hip
  have hce : classes[i]? = some (classes.get ⟨i, hi⟩) :=
    List.getElem?_eq_getElem hi
  refine ⟨rfl, ?_, ?_, ?_⟩
  · intro c hc
    rw [hpe] at hc
    have : (preservedColors cmap classes).get ⟨i, hip⟩ = some c :=
      Option.some_inj.mp hc
    rw [hkey, this]
    rfl
  · intro hnone hign
    rw [hpe] at hnone
    rw [hce] at hign
    have h1 : (preservedColors cmap classes).get ⟨i, hip⟩ = none :=
      Option.some_inj.mp hnone
    have h2 : classes.get ⟨i, hi⟩ = "IGNORE" := Option.some_inj.mp hign
    rw [hkey, h1, h2]
    simp [assignOne]
  · intro hnone hnign
    rw [hpe] at hnone
    rw [hce] at hnign
    have h1 : (preservedColors cmap classes).get ⟨i, hip⟩ = none :=
      Option.some_inj.mp hnone
    have h2 : ¬(classes.get ⟨i, hi⟩ = "IGNORE") := by
      intro h
      exact hnign (by rw [h])
    rw [hkey, h1]
    simp [assignOne, h2]
    intro hfalse
    exact absurd hfalse h2

/-- Concrete instantiation of `updateColors_assignment_rules`: the initial
class list `["IGNORE", "Positive"]` with no prior color map, at index 1. -/
theorem updateColors_assignment_rules_witness :
    (updateColors ["IGNORE", "Positive"] none)[1]? =
      some (firstUnused (paletteFor ["IGNORE", "Positive"])
        (usedBefore ["IGNORE", "Positive"] none 1)) :=
  ((updateColors_assignment_rules ["IGNORE", "Positive"] none 1
    (by decide)).2.2.2) (by decide) (by decide)

lemma updateColors_idem (classes : List String) (cmap : Option ColorMap)
    (hnd : classes.Nodup) :
    updateColors classes (some (buildColormap classes (updateColors classes cmap)))
      = updateColors classes cmap := by
  have hpre := preservedColors_rebuild classes cmap hnd
  show assignLoop (paletteFor classes)
      (classes.zip (preservedColors
        (some (buildColormap classes (updateColors classes cmap))) classes))
      ((preservedColors
        (some (buildColormap classes (updateColors classes cmap)))
        classes).filterMap id) = updateColors classes cmap
  rw [hpre]
  have hlen : (updateColors classes cmap).length = classes.length :=
    updateColors_length classes cmap
  have hcond : ∀ p ∈ classes.zip (updateColors classes cmap), p.2 = none →
      p.1 ≠ "IGNORE" ∧
        ∀ q ∈ paletteFor classes, q ∈ (updateColors classes cmap).filterMap id := by
    intro p hp hpnone
    rcases List.getElem?_of_mem hp with ⟨j, hj⟩
    rw [List.getElem?_zip_eq_some] at hj
    obtain ⟨hj1, hj2⟩ := hj
    rw [hpnone] at hj2
    have hjres : (assignLoop (paletteFor classes)
        (classes.zip (preservedColors cmap classes))
        ((preservedColors cmap classes).filterMap id))[j]? = some none := hj2
    obtain ⟨⟨cls, hes, hnign⟩, hpal⟩ :=
      assignLoop_exhausted (paletteFor classes) _ _ j hjres
    rw [List.getElem?_zip_eq_some] at hes
    obtain ⟨hes1, hes2⟩ := hes
    have hp1 : p.1 = cls := by
      rw [hes1] at hj1
      exact (Option.some_inj.mp hj1).symm
    refine ⟨hp1 ▸ hnign, ?_⟩
    intro q hq
    rcases hpal q hq with hqa | hqb
    · rcases List.mem_filterMap.mp hqa with ⟨b, hb, hbq⟩
      have hbq' : b = some q := hbq
      subst hbq'
      rcases List.getElem?_of_mem hb with ⟨k, hk⟩
      have hkl : k < classes.length := by
        have h8 := (List.getElem?_eq_some_iff.mp hk).1
        rwa [preservedColors_length] at h8
      have hkz : (classes.zip (preservedColors cmap classes))[k]? =
          some (classes.get ⟨k, hkl⟩, some q) := by
        rw [List.getElem?_zip_eq_some]
        exact ⟨List.getElem?_eq_getElem hkl, hk⟩
      have hkres := assignLoop_getElem?_of_some (paletteFor classes) _
        ((preservedColors cmap classes).filterMap id) k _ q hkz
      have hmm : some q ∈ updateColors classes cmap := mem_of_idx hkres
      exact List.mem_filterMap.mpr ⟨some q, hmm, rfl⟩
    · exact hqb
  rw [assignLoop_copy _ _ _ hcond]
  exact List.map_snd_zip classes (updateColors classes cmap) (le_of_eq hlen)

lemma assignLoop_last_fresh (palette : List String)
    (es : List (String × Option String)) (u0 : List String) (y c : String)
    (hyI : y ≠ "IGNORE")
    (hall : ∀ p ∈ es, ∀ cc, p.2 = some cc → cc ∈ u0)
    (hc : (assignLoop palette (es ++ [(y, none)]) u0)[es.length]? =
      some (some c)) :
    ∀ i, i < es.length →
      (assignLoop palette (es ++ [(y, none)]) u0)[i]? ≠ some (some c) := by
  have hsplit := assignLoop_append palette es [(y, none)] u0
  have hlenA : (assignLoop palette es u0).length = es.length :=
    assignLoop_length _ _ _
  have hlast : (assignLoop palette (es ++ [(y, none)]) u0)[es.length]? =
      some (assignOne palette y none (assignLoopUsed palette es u0)) := by
    rw [hsplit]
    rw [List.getElem?_append_right (by rw [hlenA])]
    rw [hlenA, Nat.sub_self]
    rfl
  rw [hlast] at hc
  have hfu : firstUnused palette (assignLoopUsed palette es u0) = some c := by
    have h2 := Option.some_inj.mp hc
    simpa [assignOne, hyI] using h2
  have hcnot : c ∉ assignLoopUsed palette es u0 :=
    (firstUnused_eq_some _ _ _ hfu).2
  intro i hi hcontra
  have hAi : (assignLoop palette es u0)[i]? = some (some c) := by
    rw [hsplit] at hcontra
    rwa [List.getElem?_append, if_pos (by rw [hlenA]; exact hi)] at hcontra
  exact hcnot (assignLoop_some_mem_used palette es u0 hall c (mem_of_idx hAi))

lemma updateColors_append_fresh (classes2 : List String) (cm : ColorMap)
    (y c : String) (hyN : cmapGet cm y = none) (hyI : y ≠ "IGNORE")
    (hc : (updateColors (classes2 ++ [y]) (some cm))[classes2.length]? =
      some (some c)) :
    ∀ i, i < classes2.length →
      (updateColors (classes2 ++ [y]) (some cm))[i]? ≠ some (some c) := by
  have hpre : preservedColors (some cm) (classes2 ++ [y]) =
      classes2.map (cmapGet cm) ++ [none] := by
    simp only [preservedColors, List.map_append, List.map_cons, List.map_nil]
    rw [hyN]
  have hzip : (classes2 ++ [y]).zip (classes2.map (cmapGet cm) ++ [none]) =
      classes2.zip (classes2.map (cmapGet cm)) ++ [(y, none)] := by
    rw [List.zip_append (by rw [List.length_map])]
    rfl
  have hfm : (classes2.map (cmapGet cm) ++ [none]).filterMap id =
      (classes2.map (cmapGet cm)).filterMap id := by
    rw [List.filterMap_append]
    simp
  have hiseq : updateColors (classes2 ++ [y]) (some cm) =
      assignLoop (paletteFor (classes2 ++ [y]))
        (classes2.zip (classes2.map (cmapGet cm)) ++ [(y, none)])
        ((classes2.map (cmapGet cm)).filterMap id) := by
    show assignLoop (paletteFor (classes2 ++ [y]))
        ((classes2 ++ [y]).zip (preservedColors (some cm) (classes2 ++ [y])))
        ((preservedColors (some cm) (classes2 ++ [y])).filterMap id) = _
    rw [hpre, hzip, hfm]
  have hesl : (classes2.zip (classes2.map (cmapGet cm))).length =
      classes2.length := by
    rw [List.length_zip, List.length_map, min_self]
  have hall : ∀ p ∈ classes2.zip (classes2.map (cmapGet cm)), ∀ cc,
      p.2 = some cc → cc ∈ (classes2.map (cmapGet cm)).filterMap id := by
    intro p hp cc hcc
    refine List.mem_filterMap.mpr ⟨some cc, ?_, rfl⟩
    rw [← hcc]
    exact (List.of_mem_zip hp).2
  intro i hi
  rw [hiseq]
  refine assignLoop_last_fresh (paletteFor (classes2 ++ [y])) _ _ y c hyI hall
    ?_ i (by rw [hesl]; exact hi)
  rw [hesl, ← hiseq]
  exact hc

/-- Counterexample to C5 as stated.  Part 1: starting from classes
`["A", "B"]` where the prior colormap assigns class `A` the grey `#CCC`,
removing `"B"` and then adding the new class `"IGNORE"` (each step followed
by `updateColors` on the rebuilt colormap, as the store does) gives the new
class the color `#CCC` — the same color as the remaining class `A`.
Part 2: with the duplicate class list `["A", "A"]`, re-invoking
`updateColors` on the rebuilt colormap changes the assigned colors. -/
theorem updateColors_reuse_counterexample :
    (updateColors ((["A", "B"].erase "B") ++ ["IGNORE"])
        (some (buildColormap (["A", "B"].erase "B")
          (updateColors (["A", "B"].erase "B") (some [("A", some "#CCC")])))) =
      [some "#CCC", some "#CCC"]) ∧
    updateColors ["A", "A"]
        (some (buildColormap ["A", "A"] (updateColors ["A", "A"] none))) ≠
      updateColors ["A", "A"] none := by
  constructor
  · decide
  · decide

/-- C5 (amended): (1) for a duplicate-free class list, re-invoking
`updateColors` with the class list unchanged and the colormap rebuilt from
the previous result leaves every class's color unchanged; (2) after removing
a class `x` and adding a different new class `y` (each followed by
`updateColors`), provided `y` is not the special class name `IGNORE`, if `y`
is assigned a color at all then that color is distinct from the color of
every remaining class.  (The counterexample forces the two provisos:
duplicate class names break (1), and a new class named `IGNORE` receives the
fixed grey even when a remaining class already has it.) -/
theorem updateColors_stable_and_fresh :
    (∀ (classes : List String) (cmap : Option ColorMap), classes.Nodup →
      updateColors classes
          (some (buildColormap classes (updateColors classes cmap)))
        = updateColors classes cmap) ∧
    (∀ (classes0 : List String) (x : String) (cmap0 : Option ColorMap)
        (y c : String), y ∉ classes0.erase x → y ≠ "IGNORE" →
      (updateColors ((classes0.erase x) ++ [y])
          (some (buildColormap (classes0.erase x)
            (updateColors (classes0.erase x) cmap0))))[(classes0.erase x).length]?
        = some (some c) →
      ∀ i, i < (classes0.erase x).length →
        (updateColors ((classes0.erase x) ++ [y])
            (some (buildColormap (classes0.erase x)
              (updateColors (classes0.erase x) cmap0))))[i]? ≠ some (some c)) :=
  ⟨fun classes cmap hnd => updateColors_idem classes cmap hnd,
   fun classes0 x cmap0 y c hy hyI hc i hi =>
     updateColors_append_fresh (classes0.erase x)
       (buildColormap (classes0.erase x) (updateColors (classes0.erase x) cmap0))
       y c
       (cmapGet_not_mem (classes0.erase x)
         (updateColors (classes0.erase x) cmap0) y hy)
       hyI hc i hi⟩

/-- Concrete instantiation of `updateColors_stable_and_fresh`: re-running
`updateColors` on the rebuilt colormap of the default class list
`["IGNORE", "Positive"]` preserves the colors, and after removing
`"Positive"` from `["IGNORE", "Positive"]` and adding the new class `"Run"`,
the fresh color differs from the remaining class's color at index 0. -/
theorem updateColors_stable_and_fresh_witness :
    (updateColors ["IGNORE", "Positive"]
        (some (buildColormap ["IGNORE", "Positive"]
          (updateColors ["IGNORE", "Positive"] none)))
      = updateColors ["IGNORE", "Positive"] none) ∧
    (updateColors ((["IGNORE", "Positive"].erase "Positive") ++ ["Run"])
        (some (buildColormap (["IGNORE", "Positive"].erase "Positive")
          (updateColors (["IGNORE", "Positive"].erase "Positive") none))))[0]?
      ≠ some (some "#a6cee3") :=
  ⟨updateColors_stable_and_fresh.1 ["IGNORE", "Positive"] none (by decide),
   updateColors_stable_and_fresh.2 ["IGNORE", "Positive"] "Positive" none
     "Run" "#a6cee3" (by decide) (by decide) (by decide) 0 (by decide)⟩

/-! ### Aligned dataset (src/unnamed/part_003, `makeNewAlignedDataset`)

The `Track`, `SensorTimeSeries` and `Dataset` data structures live in
`dataStructures/alignment` and `dataStructures/dataset`, which are not under
`src/`; they are modelled from the spec's data model (a track is a
sensor/video time series with a reference-time mapping `referenceStart/End`)
and from how `makeNewAlignedDataset` accesses their fields.  JavaScript
numbers are rationals; `d3.min`/`d3.max` over a non-empty array are folds
with `min`/`max`. -/

structure SensorTimeSeries where
  name : String
  kind : String
  dimensions : List (List ℚ)
  timestampStart : ℚ
  timestampEnd : ℚ
  sampleRate : ℚ
  scales : List (ℚ × ℚ)
deriving DecidableEq, Repr

/-- Placeholder sensor used to model an out-of-bounds `timeSeries[0]` access
(the claims only quantify over tracks whose fields are populated). -/
def SensorTimeSeries.default : SensorTimeSeries :=
  { name := "", kind := "", dimensions := [], timestampStart := 0,
    timestampEnd := 0, sampleRate := 0, scales := [] }

structure Track where
  id : String
  minimized : Bool
  isAlignedToReferenceTrack : Bool
  referenceStart : ℚ
  referenceEnd : ℚ
  timeSeries : List SensorTimeSeries
deriving DecidableEq, Repr

/-- Modelled from the spec: `Track.duration` (the `dataStructures/alignment`
module is not under `src/`).  A track's reference-time range is
`[referenceStart, referenceEnd]`, so its duration is their difference. -/
def Track.duration (t : Track) : ℚ := t.referenceEnd - t.referenceStart

structure Dataset where
  timestampStart : ℚ
  timestampEnd : ℚ
  sensors : List SensorTimeSeries
deriving DecidableEq, Repr

/-- Modelled from the spec: `Dataset.addSensor` (module
`dataStructures/dataset`, not under `src/`) appends a sensor to the
dataset. -/
def Dataset.addSensor (d : Dataset) (s : SensorTimeSeries) : Dataset :=
  { d with sensors := d.sensors ++ [s] }

/-- `d3.min` over a non-empty list (the empty case is unreachable under the
claims' hypotheses; 0 stands in for `undefined`). -/
def d3min (f : Track → ℚ) : List Track → ℚ
  | [] => 0
  | t :: ts => ts.foldl (fun acc tr => min acc (f tr)) (f t)

/-- `d3.max` over a non-empty list, mirror of `d3min`. -/
def d3max (f : Track → ℚ) : List Track → ℚ
  | [] => 0
  | t :: ts => ts.foldl (fun acc tr => max acc (f tr)) (f t)

/-- Modelled from the spec: `resampleColumn` (module
`dataStructures/sampling`, not under `src/`) linearly resamples a column
whose extent is `[tStart, tEnd]` onto `nSamples` uniformly spaced sample
times spanning `[tMin, tMax]`, interpolating linearly between adjacent input
samples. -/
def resampleColumn (d : List ℚ) (tStart tEnd tMin tMax : ℚ)
    (nSamples : ℕ) : List ℚ :=
  (List.range nSamples).map (fun (i : ℕ) =>
    let t := if nSamples ≤ 1 then tMin
      else tMin + (tMax - tMin) * (i : ℚ) / ((nSamples : ℚ) - 1)
    let pos := (t - tStart) / (tEnd - tStart) * ((d.length : ℚ) - 1)
    let i0 := Int.toNat ⌊pos⌋
    let v0 := d.getD i0 0
    let v1 := d.getD (i0 + 1) v0
    v0 + (v1 - v0) * (pos - ⌊pos⌋))

/-- The non-null tracks gathered by `makeNewAlignedDataset` (`if (track ==
null) continue`). -/
def tracksToMerge (tracks : List (Option Track)) : List Track :=
  tracks.filterMap id

/-- `tMin`: the least `referenceStart` over the merged tracks. -/
def alignedTMin (tracks : List (Option Track)) : ℚ :=
  d3min (fun ts => ts.referenceStart) (tracksToMerge tracks)

/-- `tMax`: the greatest `referenceEnd` over the merged tracks. -/
def alignedTMax (tracks : List (Option Track)) : ℚ :=
  d3max (fun ts => ts.referenceEnd) (tracksToMerge tracks)

/-- A single track's sample rate as computed by `makeNewAlignedDataset`:
`(timeSeries[0].dimensions[0].length - 1) / duration`. -/
def trackSampleRate (ts : Track) : ℚ :=
  ((((ts.timeSeries.headD SensorTimeSeries.default).dimensions.headD
    []).length : ℚ) - 1) / ts.duration

/-- `maxSampleRate`: the greatest per-track sample rate. -/
def alignedMaxSampleRate (tracks : List (Option Track)) : ℚ :=
  d3max trackSampleRate (tracksToMerge tracks)

/-- `totalSamples = Math.ceil((tMax - tMin) * maxSampleRate)`. -/
def alignedTotalSamples (tracks : List (Option Track)) : ℤ :=
  Int.ceil ((alignedTMax tracks - alignedTMin tracks) *
    alignedMaxSampleRate tracks)

/-- The aggregated sensor `makeNewAlignedDataset` builds for one track:
every dimension of the track's first time series resampled onto the common
grid. -/
def alignedSensor (tracks : List (Option Track)) (ts : Track) :
    SensorTimeSeries :=
  { name := "aggregated"
    kind := (ts.timeSeries.headD SensorTimeSeries.default).kind
    dimensions := (ts.timeSeries.headD SensorTimeSeries.default).dimensions.map
      (fun d => resampleColumn d ts.referenceStart ts.referenceEnd
        (alignedTMin tracks) (alignedTMax tracks)
        (alignedTotalSamples tracks).toNat)
    timestampStart := alignedTMin tracks
    timestampEnd := alignedTMax tracks
    sampleRate := ((alignedTotalSamples tracks : ℚ) - 1) /
      (alignedTMax tracks - alignedTMin tracks)
    scales := (ts.timeSeries.headD SensorTimeSeries.default).scales }

/-- `makeNewAlignedDataset`: add one aggregated sensor per non-null track,
then set the dataset's bounds to `[tMin, tMax]`. -/
def makeNewAlignedDataset (tracks : List (Option Track)) : Dataset :=
  let dataset := (tracksToMerge tracks).foldl
    (fun (ds : Dataset) ts => ds.addSensor (alignedSensor tracks ts))
    { timestampStart := 0, timestampEnd := 0, sensors := [] }
  { dataset with
      timestampStart := alignedTMin tracks
      timestampEnd := alignedTMax tracks }

lemma foldl_min_le_init (f : Track → ℚ) (l : List Track) (a : ℚ) :
    l.foldl (fun acc tr => min acc (f tr)) a ≤ a := by
  induction l generalizing a with
  | nil => exact le_refl a
  | cons t ts ih => exact le_trans (ih (min a (f t))) (min_le_left _ _)

lemma foldl_min_le_mem (f : Track → ℚ) (l : List Track) (a : ℚ) (t : Track)
    (ht : t ∈ l) : l.foldl (fun acc tr => min acc (f tr)) a ≤ f t := by
  induction l generalizing a with
  | nil => simp at ht
  | cons s ts ih =>
      rcases List.mem_cons.mp ht with rfl | ht'
      · exact le_trans (foldl_min_le_init f ts (min a (f t))) (min_le_right _ _)
      · exact ih (min a (f s)) ht'

lemma init_le_foldl_max (f : Track → ℚ) (l : List Track) (a : ℚ) :
    a ≤ l.foldl (fun acc tr => max acc (f tr)) a := by
  induction l generalizing a with
  | nil => exact le_refl a
  | cons t ts ih => exact le_trans (le_max_left _ _) (ih (max a (f t)))

lemma mem_le_foldl_max (f : Track → ℚ) (l : List Track) (a : ℚ) (t : Track)
    (ht : t ∈ l) : f t ≤ l.foldl (fun acc tr => max acc (f tr)) a := by
  induction l generalizing a with
  | nil => simp at ht
  | cons s ts ih =>
      rcases List.mem_cons.mp ht with rfl | ht'
      · exact le_trans (le_max_right _ _) (init_le_foldl_max f ts (max a (f t)))
      · exact ih (max a (f s)) ht'

lemma d3min_le (f : Track → ℚ) (l : List Track) (t : Track) (ht : t ∈ l) :
    d3min f l ≤ f t := by
  cases l with
  | nil => simp at ht
  | cons s ts =>
      rcases List.mem_cons.mp ht with rfl | ht'
      · exact foldl_min_le_init f ts (f t)
      · exact foldl_min_le_mem f ts (f s) t ht'

lemma le_d3max (f : Track → ℚ) (l : List Track) (t : Track) (ht : t ∈ l) :
    f t ≤ d3max f l := by
  cases l with
  | nil => simp at ht
  | cons s ts =>
      rcases List.mem_cons.mp ht with rfl | ht'
      · exact init_le_foldl_max f ts (f t)
      · exact mem_le_foldl_max f ts (f s) t ht'

lemma foldl_min_cases (f : Track → ℚ) (l : List Track) (a : ℚ) :
    l.foldl (fun acc tr => min acc (f tr)) a = a ∨
      ∃ t ∈ l, l.foldl (fun acc tr => min acc (f tr)) a = f t := by
  induction l generalizing a with
  | nil => exact Or.inl rfl
  | cons s ts ih =>
      rcases ih (min a (f s)) with h | ⟨t, ht, heq⟩
      · rcases min_cases a (f s) with ⟨hmin, _⟩ | ⟨hmin, _⟩
        · exact Or.inl (by rw [List.foldl_cons, h, hmin])
        · exact Or.inr ⟨s, List.mem_cons_self _ _, by rw [List.foldl_cons, h, hmin]⟩
      · exact Or.inr ⟨t, List.mem_cons_of_mem _ ht, by rw [List.foldl_cons, heq]⟩

lemma foldl_max_cases (f : Track → ℚ) (l : List Track) (a : ℚ) :
    l.foldl (fun acc tr => max acc (f tr)) a = a ∨
      ∃ t ∈ l, l.foldl (fun acc tr => max acc (f tr)) a = f t := by
  induction l generalizing a with
  | nil => exact Or.inl rfl
  | cons s ts ih =>
      rcases ih (max a (f s)) with h | ⟨t, ht, heq⟩
      · rcases max_cases a (f s) with ⟨hmax, _⟩ | ⟨hmax, _⟩
        · exact Or.inl (by rw [List.foldl_cons, h, hmax])
        · exact Or.inr ⟨s, List.mem_cons_self _ _, by rw [List.foldl_cons, h, hmax]⟩
      · exact Or.inr ⟨t, List.mem_cons_of_mem _ ht, by rw [List.foldl_cons, heq]⟩

lemma d3min_mem (f : Track → ℚ) (l : List Track) (h : l ≠ []) :
    ∃ t ∈ l, d3min f l = f t := by
  cases l with
  | nil => exact absurd rfl h
  | cons s ts =>
      rcases foldl_min_cases f ts (f s) with h1 | ⟨t, ht, heq⟩
      · exact ⟨s, List.mem_cons_self _ _, h1⟩
      · exact ⟨t, List.mem_cons_of_mem _ ht, heq⟩

lemma d3max_mem (f : Track → ℚ) (l : List Track) (h : l ≠ []) :
    ∃ t ∈ l, d3max f l = f t := by
  cases l with
  | nil => exact absurd rfl h
  | cons s ts =>
      rcases foldl_max_cases f ts (f s) with h1 | ⟨t, ht, heq⟩
      · exact ⟨s, List.mem_cons_self _ _, h1⟩
      · exact ⟨t, List.mem_cons_of_mem _ ht, heq⟩

lemma foldl_addSensor (l : List Track) (g : Track → SensorTimeSeries)
    (ds : Dataset) :
    (l.foldl (fun (d : Dataset) t => d.addSensor (g t)) ds).sensors =
      ds.sensors ++ l.map g := by
  induction l generalizing ds with
  | nil => simp
  | cons t ts ih =>
      rw [List.foldl_cons, ih]
      simp [Dataset.addSensor]

lemma makeNewAlignedDataset_sensors (tracks : List (Option Track)) :
    (makeNewAlignedDataset tracks).sensors =
      (tracksToMerge tracks).map (alignedSensor tracks) := by
  show ((tracksToMerge tracks).foldl
      (fun (ds : Dataset) ts => ds.addSensor (alignedSensor tracks ts))
      { timestampStart := 0, timestampEnd := 0, sensors := [] }).sensors = _
  rw [foldl_addSensor]
  rfl

/-- C6: for a non-empty list of non-null tracks, `makeNewAlignedDataset`
produces a dataset spanning `[tMin, tMax]` — the union of the tracks'
reference-time ranges (bounded by every track and attained at some track) —
and every resampled dimension of every output sensor has exactly
`ceil((tMax - tMin) * maxSampleRate)` samples, where `maxSampleRate` is the
maximum over tracks of `(samples - 1) / duration`; each output sensor's
endpoints are the dataset bounds `tMin`/`tMax`.  Hypotheses: each track has
a positive reference duration and a non-empty first dimension (so the
real-number arithmetic of the source is meaningful). -/
theorem makeNewAlignedDataset_spec (tracks : List (Option Track))
    (hne : tracksToMerge tracks ≠ [])
    (hdur : ∀ t ∈ tracksToMerge tracks, 0 < t.duration)
    (hdim : ∀ t ∈ tracksToMerge tracks,
      1 ≤ ((t.timeSeries.headD SensorTimeSeries.default).dimensions.headD
        []).length) :
    (∀ t ∈ tracksToMerge tracks,
      (makeNewAlignedDataset tracks).timestampStart ≤ t.referenceStart ∧
      t.referenceEnd ≤ (makeNewAlignedDataset tracks).timestampEnd) ∧
    (∃ t1 ∈ tracksToMerge tracks,
      (makeNewAlignedDataset tracks).timestampStart = t1.referenceStart) ∧
    (∃ t2 ∈ tracksToMerge tracks,
      (makeNewAlignedDataset tracks).timestampEnd = t2.referenceEnd) ∧
    (∀ s ∈ (makeNewAlignedDataset tracks).sensors,
      (∀ dim ∈ s.dimensions, (dim.length : ℤ) = alignedTotalSamples tracks) ∧
      s.timestampStart = (makeNewAlignedDataset tracks).timestampStart ∧
      s.timestampEnd = (makeNewAlignedDataset tracks).timestampEnd) := by
  have hstart : (makeNewAlignedDataset tracks).timestampStart =
      alignedTMin tracks := rfl
  have hend : (makeNewAlignedDataset tracks).timestampEnd =
      alignedTMax tracks := rfl
  obtain ⟨t0, ht0⟩ := List.exists_mem_of_ne_nil _ hne
  have hminmax : alignedTMin tracks ≤ alignedTMax tracks := by
    have h1 : alignedTMin tracks ≤ t0.referenceStart :=
      d3min_le _ _ t0 ht0
    have h2 : t0.referenceStart ≤ t0.referenceEnd := by
      have := hdur t0 ht0
      rw [Track.duration] at this
      linarith
    have h3 : t0.referenceEnd ≤ alignedTMax tracks :=
      le_d3max _ _ t0 ht0
    linarith
  have hrate : 0 ≤ alignedMaxSampleRate tracks := by
    have h1 : 0 ≤ trackSampleRate t0 := by
      rw [trackSampleRate]
      apply div_nonneg
      · have := hdim t0 ht0
        have hcast : (1 : ℚ) ≤
            (((t0.timeSeries.headD SensorTimeSeries.default).dimensions.headD
              []).length : ℚ) := by exact_mod_cast this
        linarith
      · exact le_of_lt (hdur t0 ht0)
    exact le_trans h1 (le_d3max trackSampleRate _ t0 ht0)
  have htot : 0 ≤ alignedTotalSamples tracks := by
    rw [alignedTotalSamples]
    apply Int.ceil_nonneg
    exact mul_nonneg (by linarith) hrate
  refine ⟨?_, ?_, ?_, ?_⟩
  · intro t ht
    rw [hstart, hend]
    exact ⟨d3min_le _ _ t ht, le_d3max _ _ t ht⟩
  · obtain ⟨t1, ht1, heq⟩ :=
      d3min_mem (fun ts => ts.referenceStart) (tracksToMerge tracks) hne
    exact ⟨t1, ht1, by rw [hstart]; exact heq⟩
  · obtain ⟨t2, ht2, heq⟩ :=
      d3max_mem (fun ts => ts.referenceEnd) (tracksToMerge tracks) hne
    exact ⟨t2, ht2, by rw [hend]; exact heq⟩
  · intro s hs
    rw [makeNewAlignedDataset_sensors] at hs
    rcases List.mem_map.mp hs with ⟨t, ht, rfl⟩
    refine ⟨?_, rfl, rfl⟩
    intro dim hdm
    rcases List.mem_map.mp hdm with ⟨d0, hd0, rfl⟩
    have hrl : (resampleColumn d0 t.referenceStart t.referenceEnd
        (alignedTMin tracks) (alignedTMax tracks)
        (alignedTotalSamples tracks).toNat).length =
        (alignedTotalSamples tracks).toNat := by
      simp [resampleColumn]
    rw [hrl]
    exact Int.toNat_of_nonneg htot

/-- Example sensor for the witness: one two-sample dimension. -/
def sensorEx : SensorTimeSeries :=
  { name := "s", kind := "sensor", dimensions := [[1, 3]],
    timestampStart := 0, timestampEnd := 2, sampleRate := 1/2, scales := [] }

def trackEx : Track :=
  { id := "t0", minimized := false, isAlignedToReferenceTrack := false,
    referenceStart := 0, referenceEnd := 2, timeSeries := [sensorEx] }

/-- Concrete instantiation of `makeNewAlignedDataset_spec` on a single
two-sample track. -/
theorem makeNewAlignedDataset_spec_witness :
    0 < trackEx.duration ∧
    ((makeNewAlignedDataset [some trackEx]).timestampStart ≤
        trackEx.referenceStart ∧
      trackEx.referenceEnd ≤ (makeNewAlignedDataset [some trackEx]).timestampEnd) :=
  ⟨by simp [trackEx, Track.duration, zero_lt_two],
   ((makeNewAlignedDataset_spec [some trackEx]
     (by simp [tracksToMerge])
     (by simp [tracksToMerge, trackEx, Track.duration, zero_lt_two])
     (by simp [tracksToMerge, trackEx, sensorEx])).1 trackEx
       (by simp [tracksToMerge]))⟩

/-! ### alignedDataset getter caching (src/unnamed/part_003)

The getter reads `projectUiStore.currentTab` and `projectStore.tracks`
(store modules not under `src/`; modelled as arguments holding their current
values) and the private field `_alignedDataset` (the first component of the
result is the returned dataset, the second the field after the call). -/

/-- The `alignedDataset` getter: outside the `'labeling'` tab it returns the
cached dataset and leaves the cache unchanged; in the `'labeling'` tab it
recomputes from the current tracks and caches the result. -/
def alignedDatasetGet (cache : Option Dataset) (currentTab : String)
    (tracks : List (Option Track)) : Option Dataset × Option Dataset :=
  if currentTab ≠ "labeling" then (cache, cache)
  else (some (makeNewAlignedDataset tracks), some (makeNewAlignedDataset tracks))

/-- C7: when the current tab is not `'labeling'`, reading `alignedDataset`
returns the previously cached dataset and leaves the cached field unchanged;
when it is `'labeling'`, reading it recomputes the dataset from the current
tracks via `makeNewAlignedDataset` and caches that result. -/
theorem alignedDataset_caching (cache : Option Dataset) (tab : String)
    (tracks : List (Option Track)) :
    (tab ≠ "labeling" → alignedDatasetGet cache tab tracks = (cache, cache)) ∧
    (tab = "labeling" →
      alignedDatasetGet cache tab tracks =
        (some (makeNewAlignedDataset tracks),
         some (makeNewAlignedDataset tracks))) := by
  constructor <;> intro h <;> simp [alignedDatasetGet, h]

/-- Concrete instantiation of `alignedDataset_caching` on the `'alignment'`
and `'labeling'` tabs. -/
theorem alignedDataset_caching_witness :
    alignedDatasetGet none "alignment" [] = (none, none) ∧
    alignedDatasetGet none "labeling" [] =
      (some (makeNewAlignedDataset []), some (makeNewAlignedDataset [])) :=
  ⟨(alignedDataset_caching none "alignment" []).1 (by decide),
   (alignedDataset_caching none "labeling" []).2 rfl⟩

/-! ### AlignmentView correspondence creation (src/unnamed/part_001)

`startCreatingCorrespondence` installs drag handlers (`startDragging`, a
store utility not under `src/`, delivers a sequence of move events followed
by one up event; a gesture is modelled as the list of move events).  A move
event is abstracted by what `findCandidateMarker` returns for it — the
marker whose DOM element (`data-type='marker'`) is under the pointer, or
null — plus the pointer position.  JavaScript reference equality on marker
objects is modelled by a `markerId` field. -/

structure Marker where
  markerId : ℕ
  trackId : String
  localTimestamp : ℚ
deriving DecidableEq, Repr

structure AlignmentViewState where
  isCreatingCorrespondence : Bool
  markerStartKnob : Option String
  markerStart : Option Marker
  markerTarget : Option Marker
  currentPosition : Option (ℚ × ℚ)
deriving DecidableEq, Repr

/-- `stores.projectStore.tracks.map(t => t.id).indexOf(id)` (−1 when the id
is absent). -/
def trackIndexOf (tracks : List Track) (tid : String) : ℤ :=
  match (tracks.map Track.id).findIdx? (fun x => x == tid) with
  | some i => (i : ℤ)
  | none => -1

/-- The component state set on mouse-down on a marker knob. -/
def startCreatingCorrespondenceState (marker : Marker) (knob : String) :
    AlignmentViewState :=
  { isCreatingCorrespondence := true, currentPosition := none,
    markerStartKnob := some knob, markerStart := some marker,
    markerTarget := none }

/-- The candidate filtering of the move handler: a raw candidate equal to
`state.markerStart` is dropped (a marker cannot link to itself), and a
surviving candidate must lie on the track directly above or below the start
marker's track in the visible order.  The `markerStart = none` branch is
unreachable while a drag is active (the JavaScript would throw there). -/
def correspondenceCandidate (tracks : List Track) (st : AlignmentViewState)
    (rawCandidate : Option Marker) : Option Marker :=
  match (if rawCandidate = st.markerStart then none else rawCandidate),
      st.markerStart with
  | some cand, some ms =>
      if ¬(trackIndexOf tracks cand.trackId = trackIndexOf tracks ms.trackId - 1 ∨
           trackIndexOf tracks cand.trackId = trackIndexOf tracks ms.trackId + 1)
      then none else some cand
  | _, _ => none

/-- The `setState` performed by the move handler. -/
def correspondenceMoveStep (tracks : List Track) (marker : Marker)
    (st : AlignmentViewState) (rawCandidate : Option Marker) (pos : ℚ × ℚ) :
    AlignmentViewState :=
  { isCreatingCorrespondence := true, markerStart := some marker,
    markerTarget := correspondenceCandidate tracks st rawCandidate,
    currentPosition := some pos, markerStartKnob := st.markerStartKnob }

/-- The up handler: reset the interaction state; add a correspondence
(returned as the marker pair) exactly when the last candidate is non-null
and distinct from the start marker. -/
def correspondenceUpStep (marker : Marker) (st : AlignmentViewState) :
    Option (Marker × Marker) × AlignmentViewState :=
  let stReset : AlignmentViewState :=
    { isCreatingCorrespondence := false, markerStartKnob := none,
      currentPosition := none, markerStart := none, markerTarget := none }
  match st.markerTarget with
  | some cand => if cand = marker then (none, stReset) else (some (marker, cand), stReset)
  | none => (none, stReset)

lemma correspondenceCandidate_spec (tracks : List Track)
    (st : AlignmentViewState) (raw : Option Marker) (marker : Marker)
    (h1 : st.markerStart = some marker) :
    ∀ c, correspondenceCandidate tracks st raw = some c →
      c ≠ marker ∧
      (trackIndexOf tracks c.trackId = trackIndexOf tracks marker.trackId - 1 ∨
       trackIndexOf tracks c.trackId = trackIndexOf tracks marker.trackId + 1) := by
  intro c hc
  unfold correspondenceCandidate at hc
  rw [h1] at hc
  by_cases hraw : raw = some marker
  · rw [if_pos hraw] at hc
    exact absurd hc (by simp)
  · rw [if_neg hraw] at hc
    cases raw with
    | none => exact absurd hc (by simp)
    | some cand =>
        have hc2 : (if ¬(trackIndexOf tracks cand.trackId =
              trackIndexOf tracks marker.trackId - 1 ∨
            trackIndexOf tracks cand.trackId =
              trackIndexOf tracks marker.trackId + 1)
            then none else (some cand : Option Marker)) = some c := hc
        by_cases hadj : trackIndexOf tracks cand.trackId =
            trackIndexOf tracks marker.trackId - 1 ∨
          trackIndexOf tracks cand.trackId =
            trackIndexOf tracks marker.trackId + 1
        · have hcc : cand = c := by
            rw [if_neg (not_not_intro hadj)] at hc2
            exact Option.some_inj.mp hc2
          subst hcc
          refine ⟨?_, hadj⟩
          intro hcm
          exact hraw (by rw [hcm])
        · rw [if_pos hadj] at hc2
          exact absurd hc2 (by simp)

/-- C8: during a correspondence-creation drag started from `marker`'s knob,
after any sequence of move events the candidate target is never the start
marker itself and always lies on a track whose index in the visible track
order differs from the start marker's track index by exactly 1 (otherwise
the candidate is null); and a release with a null candidate adds no
correspondence. -/
theorem correspondence_drag_adjacent_only (tracks : List Track)
    (marker : Marker) (knob : String)
    (moves : List (Option Marker × (ℚ × ℚ))) :
    (∀ c,
      (moves.foldl
        (fun st mv => correspondenceMoveStep tracks marker st mv.1 mv.2)
        (startCreatingCorrespondenceState marker knob)).markerTarget = some c →
      c ≠ marker ∧
      (trackIndexOf tracks c.trackId = trackIndexOf tracks marker.trackId - 1 ∨
       trackIndexOf tracks c.trackId = trackIndexOf tracks marker.trackId + 1)) ∧
    ((moves.foldl
        (fun st mv => correspondenceMoveStep tracks marker st mv.1 mv.2)
        (startCreatingCorrespondenceState marker knob)).markerTarget = none →
      (correspondenceUpStep marker
        (moves.foldl
          (fun st mv => correspondenceMoveStep tracks marker st mv.1 mv.2)
          (startCreatingCorrespondenceState marker knob))).1 = none) := by
  have key : ∀ (ms : List (Option Marker × (ℚ × ℚ))) (st : AlignmentViewState),
      st.markerStart = some marker →
      (∀ c, st.markerTarget = some c →
        c ≠ marker ∧
        (trackIndexOf tracks c.trackId = trackIndexOf tracks marker.trackId - 1 ∨
         trackIndexOf tracks c.trackId = trackIndexOf tracks marker.trackId + 1)) →
      (ms.foldl (fun st2 mv => correspondenceMoveStep tracks marker st2 mv.1 mv.2)
          st).markerStart = some marker ∧
      (∀ c, (ms.foldl (fun st2 mv => correspondenceMoveStep tracks marker st2 mv.1 mv.2)
          st).markerTarget = some c →
        c ≠ marker ∧
        (trackIndexOf tracks c.trackId = trackIndexOf tracks marker.trackId - 1 ∨
         trackIndexOf tracks c.trackId = trackIndexOf tracks marker.trackId + 1)) := by
    intro ms
    induction ms with
    | nil => intro st h1 h2; exact ⟨h1, h2⟩
    | cons mv rest ih =>
        intro st h1 h2
        rw [List.foldl_cons]
        exact ih (correspondenceMoveStep tracks marker st mv.1 mv.2) rfl
          (correspondenceCandidate_spec tracks st mv.1 marker h1)
  obtain ⟨hA, hB⟩ := key moves (startCreatingCorrespondenceState marker knob)
    rfl (by intro c hc; exact absurd hc (by simp [startCreatingCorrespondenceState]))
  refine ⟨hB, ?_⟩
  intro hnone
  simp [correspondenceUpStep, hnone]

/-- Markers and tracks used by the interaction witnesses. -/
def trackW1 : Track :=
  { id := "T1", minimized := false, isAlignedToReferenceTrack := false,
    referenceStart := 0, referenceEnd := 0, timeSeries := [] }

def trackW2 : Track :=
  { id := "T2", minimized := false, isAlignedToReferenceTrack := false,
    referenceStart := 0, referenceEnd := 0, timeSeries := [] }

def markerW1 : Marker := { markerId := 1, trackId := "T1", localTimestamp := 0 }

def markerW2 : Marker := { markerId := 2, trackId := "T2", localTimestamp := 0 }

/-- Concrete instantiation of `correspondence_drag_adjacent_only`: a drag
from a marker on track `T1` hovering a marker on the adjacent track `T2`. -/
theorem correspondence_drag_adjacent_only_witness :
    markerW2 ≠ markerW1 ∧
    (trackIndexOf [trackW1, trackW2] markerW2.trackId =
        trackIndexOf [trackW1, trackW2] markerW1.trackId - 1 ∨
     trackIndexOf [trackW1, trackW2] markerW2.trackId =
        trackIndexOf [trackW1, trackW2] markerW1.trackId + 1) :=
  (correspondence_drag_adjacent_only [trackW1, trackW2] markerW1 "top"
    [(some markerW2, (0, 0))]).1 markerW2 (by decide)

/-! ### AlignmentView track mouse-down (src/unnamed/part_001,
`onTrackMouseDown`)

The handler captures the press position `x0`, the track's pan-zoom
`rangeStart`, the reference track's pan-zoom `rangeStart` and
pixels-per-second (store getters not under `src/`; modelled as captured
argument values), then installs drag handlers.  A gesture is the list of
`clientX` positions of the move events, followed by one up event.  The
handler's observable actions on the stores are recorded as a list of
effects. -/

inductive UIEffect where
  | setReferenceTrackPanZoom (rangeStart : ℚ) (pixelsPerSecond : Option ℚ)
  | setTrackPanZoom (trackId : String) (rangeStart : ℚ) (pixelsPerSecond : Option ℚ)
  | addMarker (localTimestamp : ℚ) (trackId : String)
  | selectMarker (localTimestamp : ℚ) (trackId : String)
deriving DecidableEq, Repr

/-- Whether an effect is a pan-zoom update (as opposed to marker
creation/selection). -/
def isPanZoomEffect : UIEffect → Bool
  | .setReferenceTrackPanZoom _ _ => true
  | .setTrackPanZoom _ _ _ => true
  | _ => false

/-- The pan-zoom update issued by one post-threshold move at `x1`: aligned
tracks pan the reference track (with a null pixels-per-second, keeping the
current zoom), other tracks pan themselves. -/
def trackMoveEffect (track : Track) (x0 rangeStart referenceRangeStart
    referencePps pps x1 : ℚ) : UIEffect :=
  if track.isAlignedToReferenceTrack then
    .setReferenceTrackPanZoom (referenceRangeStart - (x1 - x0) / referencePps) none
  else
    .setTrackPanZoom track.id (rangeStart - (x1 - x0) / pps) (some pps)

/-- The move handler over a list of `clientX` positions, threading the
latched `moved` flag: a move pans once `moved` is set or the horizontal
displacement from the press reaches 3 pixels. -/
def processTrackMoves (track : Track) (x0 rangeStart referenceRangeStart
    referencePps pps : ℚ) : List ℚ → Bool → Bool × List UIEffect
  | [], moved => (moved, [])
  | x1 :: rest, moved =>
      if moved ∨ 3 ≤ |x1 - x0| then
        let r := processTrackMoves track x0 rangeStart referenceRangeStart
          referencePps pps rest true
        (r.1, trackMoveEffect track x0 rangeStart referenceRangeStart
          referencePps pps x1 :: r.2)
      else
        processTrackMoves track x0 rangeStart referenceRangeStart
          referencePps pps rest moved

/-- `onTrackMouseDown`: ignore presses outside the track's timestamp bounds;
otherwise process the moves, and on release create and select a marker at
the clicked time exactly when no move latched the `moved` flag. -/
def onTrackMouseDown (track : Track) (time pps x0 rangeStart
    referenceRangeStart referencePps : ℚ) (moves : List ℚ) : List UIEffect :=
  if time < (track.timeSeries.headD SensorTimeSeries.default).timestampStart ∨
      time > (track.timeSeries.headD SensorTimeSeries.default).timestampEnd then
    []
  else
    (processTrackMoves track x0 rangeStart referenceRangeStart referencePps
      pps moves false).2 ++
    (if (processTrackMoves track x0 rangeStart referenceRangeStart
        referencePps pps moves false).1 then []
     else [.addMarker time track.id, .selectMarker time track.id])

lemma processTrackMoves_small (track : Track) (x0 rangeStart
    referenceRangeStart referencePps pps : ℚ) (moves : List ℚ)
    (h : ∀ x ∈ moves, |x - x0| < 3) :
    processTrackMoves track x0 rangeStart referenceRangeStart referencePps
      pps moves false = (false, []) := by
  induction moves with
  | nil => rfl
  | cons x rest ih =>
      have hx : ¬(False ∨ 3 ≤ |x - x0|) := by
        simp
        linarith [h x (List.mem_cons_self _ _)]
      rw [processTrackMoves]
      rw [if_neg (by simpa using hx)]
      exact ih (fun y hy => h y (List.mem_cons_of_mem _ hy))

lemma processTrackMoves_all_pan (track : Track) (x0 rangeStart
    referenceRangeStart referencePps pps : ℚ) (moves : List ℚ) (moved : Bool) :
    ∀ e ∈ (processTrackMoves track x0 rangeStart referenceRangeStart
      referencePps pps moves moved).2, isPanZoomEffect e = true := by
  induction moves generalizing moved with
  | nil => intro e he; exact absurd he (by simp [processTrackMoves])
  | cons x rest ih =>
      intro e he
      rw [processTrackMoves] at he
      by_cases hcond : moved = true ∨ 3 ≤ |x - x0|
      · rw [if_pos hcond] at he
        rcases List.mem_cons.mp he with rfl | he'
        · rw [trackMoveEffect]
          by_cases hal : track.isAlignedToReferenceTrack = true
          · rw [if_pos hal]; rfl
          · rw [if_neg hal]; rfl
        · exact ih true e he'
      · rw [if_neg hcond] at he
        exact ih moved e he

lemma processTrackMoves_moved (track : Track) (x0 rangeStart
    referenceRangeStart referencePps pps : ℚ) (moves : List ℚ) :
    (processTrackMoves track x0 rangeStart referenceRangeStart referencePps
      pps moves true).1 = true := by
  induction moves with
  | nil => rfl
  | cons x rest ih =>
      rw [processTrackMoves]
      rw [if_pos (Or.inl rfl)]
      exact ih

lemma processTrackMoves_threshold (track : Track) (x0 rangeStart
    referenceRangeStart referencePps pps : ℚ) (moves : List ℚ)
    (h : ∃ x ∈ moves, 3 ≤ |x - x0|) :
    (processTrackMoves track x0 rangeStart referenceRangeStart referencePps
      pps moves false).1 = true ∧
    (processTrackMoves track x0 rangeStart referenceRangeStart referencePps
      pps moves false).2 ≠ [] := by
  induction moves with
  | nil => simp at h
  | cons x rest ih =>
      rw [processTrackMoves]
      by_cases hx : 3 ≤ |x - x0|
      · rw [if_pos (Or.inr hx)]
        exact ⟨processTrackMoves_moved track x0 rangeStart referenceRangeStart
          referencePps pps rest, by simp⟩
      · rw [if_neg (by simp [hx])]
        apply ih
        rcases h with ⟨y, hy, hy3⟩
        rcases List.mem_cons.mp hy with rfl | hy'
        · exact absurd hy3 hx
        · exact ⟨y, hy', hy3⟩

/-- C9: for a mouse-down on a track at a time within the track's timestamp
bounds, if no move of the gesture reaches 3 pixels of horizontal
displacement from the press point, the handler issues exactly a
marker-creation and a marker-selection effect at the clicked time (no
pan-zoom change); if some move reaches 3 pixels, every issued effect is a
pan-zoom update, at least one is issued, and no marker is created or
selected. -/
theorem onTrackMouseDown_click_vs_pan (track : Track) (time pps x0 rangeStart
    referenceRangeStart referencePps : ℚ) (moves : List ℚ)
    (hin : (track.timeSeries.headD SensorTimeSeries.default).timestampStart ≤
        time ∧
      time ≤ (track.timeSeries.headD SensorTimeSeries.default).timestampEnd) :
    ((∀ x ∈ moves, |x - x0| < 3) →
      onTrackMouseDown track time pps x0 rangeStart referenceRangeStart
        referencePps moves =
      [.addMarker time track.id, .selectMarker time track.id]) ∧
    ((∃ x ∈ moves, 3 ≤ |x - x0|) →
      (∃ e ∈ onTrackMouseDown track time pps x0 rangeStart
        referenceRangeStart referencePps moves, isPanZoomEffect e = true) ∧
      (∀ e ∈ onTrackMouseDown track time pps x0 rangeStart
        referenceRangeStart referencePps moves, isPanZoomEffect e = true)) := by
  have hguard : ¬(time < (track.timeSeries.headD
      SensorTimeSeries.default).timestampStart ∨
      time > (track.timeSeries.headD SensorTimeSeries.default).timestampEnd) := by
    push_neg
    exact hin
  constructor
  · intro hsmall
    rw [onTrackMouseDown, if_neg hguard,
      processTrackMoves_small track x0 rangeStart referenceRangeStart
        referencePps pps moves hsmall]
    rfl
  · intro hbig
    obtain ⟨hmoved, hne⟩ := processTrackMoves_threshold track x0 rangeStart
      referenceRangeStart referencePps pps moves hbig
    have heq : onTrackMouseDown track time pps x0 rangeStart
        referenceRangeStart referencePps moves =
        (processTrackMoves track x0 rangeStart referenceRangeStart
          referencePps pps moves false).2 := by
      rw [onTrackMouseDown, if_neg hguard, hmoved]
      simp
    constructor
    · rcases List.exists_mem_of_ne_nil _ hne with ⟨e, he⟩
      refine ⟨e, by rw [heq]; exact he, ?_⟩
      exact processTrackMoves_all_pan track x0 rangeStart referenceRangeStart
        referencePps pps moves false e he
    · intro e he
      rw [heq] at he
      exact processTrackMoves_all_pan track x0 rangeStart referenceRangeStart
        referencePps pps moves false e he

/-- Concrete instantiation of `onTrackMouseDown_click_vs_pan`: a click with
no movement on a track whose single time series spans `[0, 0]`, at time 0. -/
theorem onTrackMouseDown_click_vs_pan_witness :
    onTrackMouseDown
      { id := "T1", minimized := false, isAlignedToReferenceTrack := false,
        referenceStart := 0, referenceEnd := 0,
        timeSeries := [SensorTimeSeries.default] } 0 1 0 0 0 1 [] =
    [.addMarker 0 "T1", .selectMarker 0 "T1"] :=
  (onTrackMouseDown_click_vs_pan
    { id := "T1", minimized := false, isAlignedToReferenceTrack := false,
      referenceStart := 0, referenceEnd := 0,
      timeSeries := [SensorTimeSeries.default] } 0 1 0 0 0 1 []
    (by simp [SensorTimeSeries.default])).1 (by simp)

/-! ### LabelingStore.removeClass (src/unnamed/part_003)

`TimeRangeIndex` (module `dataStructures/TimeRangeIndex`, not under `src/`)
is modelled from the spec: a collection of interval-tagged items supporting
add/remove/clear/has and iteration, with item identity; it is modelled as
the list of its items, `remove` deleting the item.  A label's fields other
than `className` are irrelevant to `removeClass` and are carried opaquely
(identity is the `labelId` field, standing for JavaScript reference
identity). -/

structure Label where
  labelId : ℕ
  className : String
  timestampStart : ℚ
  timestampEnd : ℚ
deriving DecidableEq, Repr

/-- The parts of the `LabelingStore` state touched by `removeClass`. -/
structure LabelingState where
  labelsIndex : List Label
  classes : List String
  classColors : List (Option String)
  classColormap : Option ColorMap
deriving Repr

/-- The store-level `updateColors`: recompute `classColors` and rebuild
`classColormap` from the current classes. -/
def LabelingState.updateColorsS (st : LabelingState) : LabelingState :=
  { st with
      classColors := updateColors st.classes st.classColormap,
      classColormap :=
        some (buildColormap st.classes (updateColors st.classes st.classColormap)) }

/-- `removeClass`: collect the labels of the class, remove each of them from
the index, then remove the class (first occurrence, via
`indexOf`/`splice`) and recompute its colors if it was present. -/
def removeClass (st : LabelingState) (className : String) : LabelingState :=
  let toRemove := st.labelsIndex.filter (fun l => l.className == className)
  let idx1 := if toRemove.length > 0
    then toRemove.foldl List.erase st.labelsIndex
    else st.labelsIndex
  let st1 : LabelingState := { st with labelsIndex := idx1 }
  if className ∈ st.classes then
    LabelingState.updateColorsS { st1 with classes := st1.classes.erase className }
  else st1

lemma foldl_erase_skip {α : Type} [DecidableEq α] (a : α) (l ts : List α)
    (h : ∀ b ∈ ts, b ≠ a) :
    ts.foldl List.erase (a :: l) = a :: ts.foldl List.erase l := by
  induction ts generalizing l with
  | nil => rfl
  | cons b ts ih =>
      rw [List.foldl_cons, List.foldl_cons]
      have hne : a ≠ b := Ne.symm (h b (List.mem_cons_self _ _))
      rw [List.erase_cons_tail (by simp [hne])]
      exact ih (l.erase b) (fun b2 hb2 => h b2 (List.mem_cons_of_mem _ hb2))

lemma foldl_erase_filter (p : Label → Bool) (l : List Label) :
    (l.filter p).foldl List.erase l = l.filter (fun a => !(p a)) := by
  induction l with
  | nil => rfl
  | cons a l ih =>
      by_cases hpa : p a = true
      · rw [List.filter_cons_of_pos hpa, List.foldl_cons, List.erase_cons_head,
          ih, List.filter_cons_of_neg (by simp [hpa])]
      · rw [List.filter_cons_of_neg hpa,
          foldl_erase_skip a l (l.filter p) (fun b hb hba => by
            have hpb := (List.mem_filter.mp hb).2
            rw [hba] at hpb
            exact hpa hpb),
          ih, List.filter_cons_of_pos (by simp [hpa])]

/-- C10: `removeClass c` removes from the label index exactly the labels
whose `className` is `c` (labels of other classes stay), and removes `c`
from the class list (the class list is duplicate-free in the store, as
`addClass`/`renameClass` refuse duplicates). -/
theorem removeClass_spec (st : LabelingState) (cls : String)
    (hnd : st.classes.Nodup) :
    (removeClass st cls).labelsIndex =
      st.labelsIndex.filter (fun l => !(l.className == cls)) ∧
    cls ∉ (removeClass st cls).classes := by
  have hidx : (if (st.labelsIndex.filter
        (fun l => l.className == cls)).length > 0
      then (st.labelsIndex.filter (fun l => l.className == cls)).foldl
        List.erase st.labelsIndex
      else st.labelsIndex) =
      st.labelsIndex.filter (fun l => !(l.className == cls)) := by
    by_cases hlen : (st.labelsIndex.filter
        (fun l => l.className == cls)).length > 0
    · rw [if_pos hlen]
      exact foldl_erase_filter (fun l => l.className == cls) st.labelsIndex
    · rw [if_neg hlen]
      have hfe : st.labelsIndex.filter (fun l => l.className == cls) = [] := by
        rcases List.eq_nil_or_concat (st.labelsIndex.filter
          (fun l => l.className == cls)) with h | ⟨l2, b, h⟩
        · exact h
        · exact absurd (by rw [h]; simp) hlen
      have hall := List.filter_eq_nil_iff.mp hfe
      exact (List.filter_eq_self.mpr (fun a ha => by
        simpa using hall a ha)).symm
  by_cases hmem : cls ∈ st.classes
  · constructor
    · show (LabelingState.updateColorsS _).labelsIndex = _
      rw [removeClass, if_pos hmem]
      exact hidx
    · rw [removeClass, if_pos hmem]
      show cls ∉ st.classes.erase cls
      intro hcontra
      exact ((hnd.mem_erase_iff).mp hcontra).1 rfl
  · constructor
    · rw [removeClass, if_neg hmem]
      exact hidx
    · rw [removeClass, if_neg hmem]
      exact hmem

/-- Labels and state used by the `removeClass` witness. -/
def labelA : Label :=
  { labelId := 1, className := "A", timestampStart := 0, timestampEnd := 0 }

def labelB : Label :=
  { labelId := 2, className := "B", timestampStart := 0, timestampEnd := 0 }

def labelingStateEx : LabelingState :=
  { labelsIndex := [labelA, labelB], classes := ["A", "B"],
    classColors := [], classColormap := none }

/-- Concrete instantiation of `removeClass_spec` on a two-label,
two-class state. -/
theorem removeClass_spec_witness :
    (removeClass labelingStateEx "A").labelsIndex =
      labelingStateEx.labelsIndex.filter (fun l => !(l.className == "A")) ∧
    "A" ∉ (removeClass labelingStateEx "A").classes :=
  removeClass_spec labelingStateEx "A" (by decide)

end ELT
